import Mathlib

/-!
Verification of the GPW-Quant-System backtest core against its specification.

The development shallowly embeds the backtesting engine
(src/backtest/engine.py), the benchmark comparator
(src/backtest/run_backtest.py) and the regime analyzer
(src/data/scripts/regime_analysis.py) in Lean.  Floating-point values are
modelled by rationals (ℚ); every value of the model is finite, so the
pandas dropna/replace-inf cleaning steps are identities.  A pandas Series
indexed by date is modelled by a list in date order (the engine sorts its
panel by (symbol, date); the embedding takes the date-sorted list
directly).  NaN-able quantities that the claims care about are modelled by
Option ℚ with none playing the role of NaN.
-/

set_option maxHeartbeats 1000000

namespace GPWQuant

/-- Embedding of BacktestConfig (engine.py lines 11-26), with the same
defaults.  bps values and capital are rationals; trading_days_per_year is
an int in the source, a natural here. -/
structure BacktestConfig where
  initial_capital : ℚ := 100000
  commission_bps : ℚ := 5
  slippage_bps : ℚ := 2
  max_gross_leverage : ℚ := 1
  trading_days_per_year : ℕ := 252

/-- One input row of a single-symbol panel, already filtered to one symbol
and sorted by date (list position = date order).  Only the columns the
computations read are kept (close is never used arithmetically). -/
structure SRow where
  ret_1d : ℚ
  signal : ℚ
deriving DecidableEq

def dummySRow : SRow := { ret_1d := 0, signal := 0 }

/-- Embedding of pandas clip(-1, 1) used at engine.py line 85:
weight = signal clipped to [-1, 1]. -/
def clipWeight (s : ℚ) : ℚ := min (max s (-1)) 1

/-- One prepared row: the ret_1d column together with the weight and
weight_lag1 columns added by _prepare_df (engine.py lines 85-87). -/
structure Day where
  ret_1d : ℚ
  weight : ℚ
  weight_lag1 : ℚ
deriving DecidableEq

def dummyDay : Day := { ret_1d := 0, weight := 0, weight_lag1 := 0 }

/-- Embedding of the weight / weight_lag1 computation of _prepare_df
(engine.py lines 85-87): weight = clip(signal, -1, 1), weight_lag1 =
groupby(symbol).shift(1).fillna(0), i.e. the previous row's weight with 0
for the first row.  prev carries the previous row's weight. -/
def prepareAux (prev : ℚ) : List SRow → List Day
  | [] => []
  | r :: rs =>
    let w := clipWeight r.signal
    { ret_1d := r.ret_1d, weight := w, weight_lag1 := prev } :: prepareAux w rs

/-- Prepared single-symbol panel: first row's lagged weight is 0 (fillna). -/
def prepareDays (rows : List SRow) : List Day := prepareAux 0 rows

/-- Per-day gross return (engine.py line 105): gross_ret = ret_1d * weight_lag1. -/
def grossRet (d : Day) : ℚ := d.ret_1d * d.weight_lag1

/-- Per-day turnover (engine.py line 106): |weight - weight_lag1|. -/
def turnoverOf (d : Day) : ℚ := |d.weight - d.weight_lag1|

/-- Cost per unit turnover (engine.py line 101):
(commission_bps + slippage_bps) / 10000. -/
def costPerTurnover (commission_bps slippage_bps : ℚ) : ℚ :=
  (commission_bps + slippage_bps) / 10000

/-- Per-day net return (engine.py lines 107-108):
net_ret = gross_ret - turnover * cost_per_turnover. -/
def netRet (cpt : ℚ) (d : Day) : ℚ := grossRet d - turnoverOf d * cpt

/-- The gross_ret column of the single-symbol run. -/
def grossRets (rows : List SRow) : List ℚ := (prepareDays rows).map grossRet

/-- The net_ret column of the single-symbol run. -/
def netRets (cfg : BacktestConfig) (rows : List SRow) : List ℚ :=
  (prepareDays rows).map (netRet (costPerTurnover cfg.commission_bps cfg.slippage_bps))

/-- Cumulative product scaled by a starting value: cumprodAux a [x1, x2, ...]
is [a*x1, a*x1*x2, ...]; models initial_capital * (1 + net_ret).cumprod(). -/
def cumprodAux (acc : ℚ) : List ℚ → List ℚ
  | [] => []
  | x :: xs => (acc * x) :: cumprodAux (acc * x) xs

/-- The equity column (engine.py line 109):
equity = initial_capital * (1 + net_ret).cumprod(). -/
def equityList (cfg : BacktestConfig) (rows : List SRow) : List ℚ :=
  cumprodAux cfg.initial_capital ((netRets cfg rows).map (fun x => 1 + x))

/-- final_equity (engine.py line 142): last entry of the equity curve
(the engine raises before reaching this point when the panel is empty,
so the default is never exercised on a run that returns). -/
def finalEquitySingle (cfg : BacktestConfig) (rows : List SRow) : ℚ :=
  (equityList cfg rows).getLastD cfg.initial_capital

/-- growth (engine.py line 143): final_equity / initial_capital. -/
def growthSingle (cfg : BacktestConfig) (rows : List SRow) : ℚ :=
  finalEquitySingle cfg rows / cfg.initial_capital

/-- total_return (engine.py line 145): growth - 1. -/
def totalReturnSingle (cfg : BacktestConfig) (rows : List SRow) : ℚ :=
  growthSingle cfg rows - 1

/-- n, the count of valid net-return observations (engine.py lines 130-140);
in the rational model every value is finite so this is the series length. -/
def nDaysSingle (cfg : BacktestConfig) (rows : List SRow) : ℕ :=
  (netRets cfg rows).length

/-- The lagged weight the engine uses on day t of a single-symbol panel:
0 for the first observation, otherwise the clipped signal of day t-1. -/
def weightLag1At (rows : List SRow) (t : ℕ) : ℚ :=
  if t = 0 then 0 else clipWeight (rows.getD (t - 1) dummySRow).signal

/-- The gross_ret value the engine computes on day t. -/
def grossRetAt (rows : List SRow) (t : ℕ) : ℚ := (grossRets rows).getD t 0

/-! Drawdown (engine.py lines 153-164 and 303-314). -/

/-- Running maximum with carried maximum m, as in np.maximum.accumulate. -/
def runningMaxAux (m : ℚ) : List ℚ → List ℚ
  | [] => []
  | x :: xs => max m x :: runningMaxAux (max m x) xs

/-- Embedding of np.maximum.accumulate. -/
def runningMax : List ℚ → List ℚ
  | [] => []
  | x :: xs => x :: runningMaxAux x xs

/-- The dd array (engine.py line 163): curve / running_max(curve) - 1. -/
def drawdowns (curve : List ℚ) : List ℚ :=
  curve.zipWith (fun c m => c / m - 1) (runningMax curve)

/-- Minimum of a list as np.min computes it on a nonempty array (the
engine only reaches dd.min() with a nonempty series). -/
def listMin : List ℚ → ℚ
  | [] => 0
  | x :: xs => xs.foldl min x

/-- max_dd (engine.py lines 161-164): the curve is equity / initial_capital,
dd = curve / running_max(curve) - 1, max_dd = dd.min(). -/
def maxDrawdownOf (init : ℚ) (equity : List ℚ) : ℚ :=
  listMin (drawdowns (equity.map (fun e => e / init)))

/-- The summary's max_drawdown for a single-symbol run. -/
def maxDrawdownSingle (cfg : BacktestConfig) (rows : List SRow) : ℚ :=
  maxDrawdownOf cfg.initial_capital (equityList cfg rows)

/-! Symbol filtering (engine.py lines 95-99).  run_single_symbol lowercases
the requested symbol and then filters the raw panel BEFORE _prepare_df
lowercases the panel's symbol column, so a row matches only when its
stored symbol is literally the lowercased request. -/

/-- Embedding of python str.lower(); symbol strings are modelled as their
character lists so that lowercasing is executable. -/
def strLower (s : List Char) : List Char := s.map Char.toLower

/-- A raw panel row as seen by the symbol filter: only the symbol column
matters for the filter; the remaining columns ride along. -/
structure FRow where
  symbol : List Char
  ret_1d : ℚ
  signal : ℚ
deriving DecidableEq

/-- Embedding of the filter df[df[quote-symbol] == symbol] after
symbol = symbol.lower() (engine.py lines 95-96): only the REQUESTED symbol
is lowercased; the panel's symbol column is compared as stored. -/
def filterSymbol (rows : List FRow) (symbol : List Char) : List FRow :=
  rows.filter (fun r => r.symbol == strLower symbol)

/-- run_single_symbol raises the no-data error exactly when the filtered
panel is empty (engine.py lines 98-99). -/
def noDataError (rows : List FRow) (symbol : List Char) : Bool :=
  (filterSymbol rows symbol).isEmpty

/-! Required-column validation (engine.py lines 74-77 and 95-96). -/

/-- The required column set of _prepare_df (engine.py line 74), listed in
the order the comprehension produces for this build. -/
def requiredCols : List String := ["date", "symbol", "close", "ret_1d", "signal"]

/-- The missing-column list of _prepare_df (engine.py line 75). -/
def missingCols (cols : List String) : List String :=
  requiredCols.filter (fun c => !(cols.contains c))

/-- Errors the validation layer can raise: pandas KeyError from indexing a
missing column, and the engine's ValueError listing the missing columns. -/
inductive EngineError where
  | keyError : String → EngineError
  | missingColumns : List String → EngineError
deriving DecidableEq

/-- Embedding of the check at the top of _prepare_df (engine.py lines
74-77): raise ValueError naming the missing columns, else proceed. -/
def prepareDfCheck (cols : List String) : Except EngineError Unit :=
  if missingCols cols = [] then Except.ok () else Except.error (EngineError.missingColumns (missingCols cols))

/-- run_portfolio passes the panel straight to _prepare_df (engine.py line 211). -/
def runPortfolioCheck (cols : List String) : Except EngineError Unit :=
  prepareDfCheck cols

/-- run_single_symbol evaluates df[df[quote-symbol] == symbol] before
_prepare_df runs (engine.py line 96), so a panel without a symbol column
raises a pandas KeyError naming only that column. -/
def runSingleSymbolCheck (cols : List String) : Except EngineError Unit :=
  if cols.contains "symbol" then prepareDfCheck cols else Except.error (EngineError.keyError "symbol")

/-! Portfolio mode (engine.py lines 184-341).  The panel is modelled as the
list of its date groups in date order; each group lists that date's rows
(one per symbol, in symbol order).  Symbols are numbered. -/

/-- One row of the portfolio panel: symbol id, ret_1d, signal. -/
structure PRow where
  sym : ℕ
  ret_1d : ℚ
  signal : ℚ
deriving DecidableEq

/-- All rows of one date, as produced by groupby(date). -/
abbrev DateGroup := List PRow

/-- n_long of _normalize_weights (engine.py lines 221-224): count of rows
with positive weight. -/
def longCount (g : DateGroup) : ℕ :=
  g.countP (fun r => decide (0 < clipWeight r.signal))

/-- n_short of _normalize_weights (engine.py lines 222-225). -/
def shortCount (g : DateGroup) : ℕ :=
  g.countP (fun r => decide (clipWeight r.signal < 0))

/-- The long/short gross budgets of _normalize_weights (engine.py lines
229-244): halves of max_gross_leverage when both sides are populated, the
full budget to the populated side otherwise, zero when neither side is. -/
def sideBudgets (maxLev : ℚ) (nLong nShort : ℕ) : ℚ × ℚ :=
  if 0 < nLong ∧ 0 < nShort then (maxLev / 2, maxLev / 2)
  else if 0 < nLong then (maxLev, 0)
  else if 0 < nShort then (0, maxLev)
  else (0, 0)

/-- The port_weight of one row (engine.py lines 246-249): each long gets
long_gross / n_long, each short gets -(short_gross / n_short), flat rows 0. -/
def rowPortWeight (lg sg : ℚ) (nLong nShort : ℕ) (r : PRow) : ℚ :=
  if 0 < clipWeight r.signal then lg / (nLong : ℚ)
  else if clipWeight r.signal < 0 then -(sg / (nShort : ℚ))
  else 0

/-- The port_weight column for one date group, keyed by symbol. -/
def groupPortWeights (maxLev : ℚ) (g : DateGroup) : List (ℕ × ℚ) :=
  g.map (fun r =>
    (r.sym, rowPortWeight (sideBudgets maxLev (longCount g) (shortCount g)).1
      (sideBudgets maxLev (longCount g) (shortCount g)).2 (longCount g) (shortCount g) r))

/-- State carrying each symbol's most recent port_weight (0 before the
symbol's first observation): this is what
groupby(symbol).port_weight.shift(1).fillna(0) reads on the next date the
symbol appears (engine.py line 256). -/
def updState (st : ℕ → ℚ) (ws : List (ℕ × ℚ)) : ℕ → ℚ :=
  fun s => (ws.lookup s).getD (st s)

/-- The per-date aggregated outputs of engine.py lines 260-271.  st holds
the lagged port_weight of every symbol (port_weight_lag1 of this date's
rows). -/
structure DayAgg where
  gross_ret : ℚ
  cost_ret : ℚ
  gross_leverage : ℚ
  n_long : ℕ
  n_short : ℕ
  portfolio_turnover : ℚ
deriving DecidableEq

def dummyAgg : DayAgg :=
  { gross_ret := 0, cost_ret := 0, gross_leverage := 0, n_long := 0, n_short := 0,
    portfolio_turnover := 0 }

/-- Aggregation of one date (engine.py lines 260-271): sums of
symbol_gross_ret = ret_1d * port_weight_lag1, symbol_cost_ret =
|port_weight - port_weight_lag1| * cost_per_turnover, gross_leverage =
sum of |port_weight_lag1|, and the lagged long/short counts. -/
def dayAgg (cpt maxLev : ℚ) (st : ℕ → ℚ) (g : DateGroup) : DayAgg :=
  { gross_ret := (g.map (fun r => r.ret_1d * st r.sym)).sum
    cost_ret := (g.map (fun r =>
      |rowPortWeight (sideBudgets maxLev (longCount g) (shortCount g)).1
          (sideBudgets maxLev (longCount g) (shortCount g)).2 (longCount g) (shortCount g) r -
        st r.sym| * cpt)).sum
    gross_leverage := (g.map (fun r => |st r.sym|)).sum
    n_long := g.countP (fun r => decide (0 < st r.sym))
    n_short := g.countP (fun r => decide (st r.sym < 0))
    portfolio_turnover := (g.map (fun r =>
      |rowPortWeight (sideBudgets maxLev (longCount g) (shortCount g)).1
          (sideBudgets maxLev (longCount g) (shortCount g)).2 (longCount g) (shortCount g) r -
        st r.sym|)).sum }

/-- The per-date portfolio run: walk the date groups in order, emitting
each date's aggregate computed from the lagged state, then recording the
date's port_weights into the state. -/
def portRunAux (cpt maxLev : ℚ) (st : ℕ → ℚ) : List DateGroup → List DayAgg
  | [] => []
  | g :: gs =>
    dayAgg cpt maxLev st g ::
      portRunAux cpt maxLev (updState st (groupPortWeights maxLev g)) gs

/-- Embedding of run_portfolio's per-date table (engine.py lines 211-271):
every symbol's lagged weight starts at 0. -/
def portRun (cfg : BacktestConfig) (groups : List DateGroup) : List DayAgg :=
  portRunAux (costPerTurnover cfg.commission_bps cfg.slippage_bps)
    cfg.max_gross_leverage (fun _ => 0) groups

/-- The portfolio net_ret column (engine.py line 273): gross_ret - cost_ret. -/
def portNetRets (cfg : BacktestConfig) (groups : List DateGroup) : List ℚ :=
  (portRun cfg groups).map (fun a => a.gross_ret - a.cost_ret)

/-- growth in portfolio mode (engine.py line 295): prod(1 + net_ret). -/
def portGrowth (cfg : BacktestConfig) (groups : List DateGroup) : ℚ :=
  ((portNetRets cfg groups).map (fun x => 1 + x)).prod

/-- total_return in portfolio mode (engine.py line 298): growth - 1. -/
def totalReturnPortfolio (cfg : BacktestConfig) (groups : List DateGroup) : ℚ :=
  portGrowth cfg groups - 1

/-- The portfolio equity curve (engine.py line 274). -/
def portEquityList (cfg : BacktestConfig) (groups : List DateGroup) : List ℚ :=
  cumprodAux cfg.initial_capital ((portNetRets cfg groups).map (fun x => 1 + x))

/-- final_equity in portfolio mode (engine.py line 325). -/
def finalEquityPortfolio (cfg : BacktestConfig) (groups : List DateGroup) : ℚ :=
  (portEquityList cfg groups).getLastD cfg.initial_capital

/-- n in portfolio mode (engine.py line 293): count of valid net returns. -/
def nDaysPortfolio (cfg : BacktestConfig) (groups : List DateGroup) : ℕ :=
  (portNetRets cfg groups).length

/-- The summary's max_drawdown for a portfolio run (engine.py lines 303-314). -/
def maxDrawdownPortfolio (cfg : BacktestConfig) (groups : List DateGroup) : ℚ :=
  maxDrawdownOf cfg.initial_capital (portEquityList cfg groups)

/-! Benchmark comparator (run_backtest.py lines 219-237). -/

/-- pct_change with carried previous value. -/
def pctChangeAux (prev : ℚ) : List ℚ → List ℚ
  | [] => []
  | c :: cs => (c / prev - 1) :: pctChangeAux c cs

/-- Embedding of close.pct_change().fillna(0) (run_backtest.py line 222):
first value 0 (pct_change's leading NaN filled), then
close_i / close_(i-1) - 1. -/
def bmRets : List ℚ → List ℚ
  | [] => []
  | c :: cs => 0 :: pctChangeAux c cs

/-- The benchmark table with its bm_ret column, keyed by date (the
benchmark is already sorted by date). -/
def bmWithRet (bm : List (ℕ × ℚ)) : List (ℕ × ℚ) :=
  (bm.map Prod.fst).zip (bmRets (bm.map Prod.snd))

/-- Inner join of the strategy daily (date, net_ret) series with the
benchmark (date, bm_ret) series on date (run_backtest.py lines 227-232),
assuming unique dates on both sides. -/
def innerJoinBm (daily : List (ℕ × ℚ)) (bmr : List (ℕ × ℚ)) : List (ℕ × ℚ × ℚ) :=
  daily.filterMap (fun p => (bmr.lookup p.1).map (fun b => (p.1, p.2, b)))

/-- Embedding of the comparator (run_backtest.py lines 222-237): raise on
an empty join, else attach active_ret = net_ret - bm_ret.  Result rows are
(date, net_ret, bm_ret, active_ret). -/
def compareBenchmark (daily : List (ℕ × ℚ)) (bm : List (ℕ × ℚ)) :
    Except String (List (ℕ × ℚ × ℚ × ℚ)) :=
  let merged := innerJoinBm daily (bmWithRet bm)
  if merged.isEmpty then Except.error "No overlapping dates between backtest and benchmark."
  else Except.ok (merged.map (fun p => (p.1, p.2.1, p.2.2, p.2.1 - p.2.2)))

/-! Regime analyzer (regime_analysis.py). -/

/-- Embedding of close.rolling(ma_window).mean() (regime_analysis.py line
219) for window w >= 1: NaN (none) before w observations exist, else the
mean of the last w closes. -/
def rollingMean (w : ℕ) (xs : List ℚ) : List (Option ℚ) :=
  (List.range xs.length).map (fun i =>
    if w ≤ i + 1 then some ((((xs.drop (i + 1 - w)).take w).sum) / (w : ℚ)) else none)

/-- NaN-propagating subtraction. -/
def optSub : Option ℚ → Option ℚ → Option ℚ
  | some a, some b => some (a - b)
  | _, _ => none

/-- Embedding of ma.diff(slope_window) (regime_analysis.py line 220):
value_i - value_(i-k), NaN for i < k or whenever either term is NaN. -/
def diffK (k : ℕ) (xs : List (Option ℚ)) : List (Option ℚ) :=
  (List.range xs.length).map (fun i =>
    if k ≤ i then optSub (xs.getD i none) (xs.getD (i - k) none) else none)

/-- The bull condition of regime_analysis.py line 236: close > ma AND
slope > 0, with any comparison against NaN false. -/
def bullCond (close : ℚ) (ma slope : Option ℚ) : Bool :=
  (ma.elim false (fun m => decide (m < close))) &&
    (slope.elim false (fun s => decide (0 < s)))

/-- The bear condition of regime_analysis.py line 237: close < ma AND
slope < 0, with any comparison against NaN false. -/
def bearCond (close : ℚ) (ma slope : Option ℚ) : Bool :=
  (ma.elim false (fun m => decide (close < m))) &&
    (slope.elim false (fun s => decide (s < 0)))

/-- Embedding of the nested np.where of regime_analysis.py line 238. -/
def regimeLabel (close : ℚ) (ma slope : Option ℚ) : String :=
  if bullCond close ma slope then "BULL"
  else if bearCond close ma slope then "BEAR"
  else "NORMAL"

/-- The benchmark table augmented with ma, slope and the regime label:
rows are (date, close, ma, slope, regime). -/
def bmIndicators (w k : ℕ) (bm : List (ℕ × ℚ)) :
    List (ℕ × ℚ × Option ℚ × Option ℚ × String) :=
  let dates := bm.map Prod.fst
  let closes := bm.map Prod.snd
  let ma := rollingMean w closes
  let slope := diffK k ma
  (dates.zip (closes.zip (ma.zip slope))).map (fun p =>
    (p.1, p.2.1, p.2.2.1, p.2.2.2, regimeLabel p.2.1 p.2.2.1 p.2.2.2))

/-- Inner join of the daily (date, net_ret) rows with the labeled
benchmark rows (regime_analysis.py lines 222-238): each merged row is
(date, net_ret, close, ma, slope, regime). -/
def mergedRegimes (w k : ℕ) (daily : List (ℕ × ℚ)) (bm : List (ℕ × ℚ)) :
    List (ℕ × ℚ × ℚ × Option ℚ × Option ℚ × String) :=
  daily.filterMap (fun p =>
    ((bmIndicators w k bm).lookup p.1).map (fun q => (p.1, p.2, q)))

/-- Embedding of beta_alpha (regime_analysis.py lines 76-100) on the
paired (strategy, benchmark) daily returns of one regime (the concat +
dropna of the source is the pairing; in the rational model nothing is
dropped).  none models the (nan, nan) returns for small samples and zero
benchmark variance. -/
def betaAlpha (pairs : List (ℚ × ℚ)) (tradingDays : ℕ) : Option (ℚ × ℚ) :=
  if pairs.length < 30 then none
  else
    let y := pairs.map Prod.fst
    let x := pairs.map Prod.snd
    let xMean := x.sum / (x.length : ℚ)
    let yMean := y.sum / (y.length : ℚ)
    let varX := ((x.map (fun v => (v - xMean) ^ 2)).sum) / (x.length : ℚ)
    if varX ≤ 0 then none
    else
      let covXY := ((pairs.map (fun p => (p.2 - xMean) * (p.1 - yMean))).sum) / (pairs.length : ℚ)
      let beta := covXY / varX
      some (beta, (yMean - beta * xMean) * (tradingDays : ℚ))

/-- One row of regime_metrics_long restricted to the fields claim C10 is
about.  none models NaN. -/
structure RegRow where
  regime : String
  series : String
  beta : Option ℚ
  alpha_ann : Option ℚ
  corr_with_benchmark : Option ℚ
deriving DecidableEq

/-- The three series of regime_analysis.py lines 263-267 (benchmark_bh is
the benchmark buy-and-hold series of the claim). -/
def seriesNames : List String := ["strategy_net", "benchmark_bh", "active"]

/-- Per-regime inputs to the row loop: regime name, the regime's paired
(net_ret, bm_ret_used) days, and the Pearson correlation the source
computes for the pair (a square root is involved, so its numeric value is
carried as a parameter of the embedding; the n >= 30 gate of
regime_analysis.py line 303 is applied here). -/
structure RegimeInput where
  name : String
  pairs : List (ℚ × ℚ)
  corr : Option ℚ
deriving DecidableEq

/-- The beta/alpha/corr fields of one output row (regime_analysis.py lines
336-359): strategy_net rows carry the computed beta_alpha and correlation,
benchmark_bh rows the constants 1.0 / 0.0 / 1.0, active rows NaN. -/
def regRowFor (tradingDays : ℕ) (ri : RegimeInput) (sn : String) : RegRow :=
  if sn = "strategy_net" then
    { regime := ri.name, series := sn,
      beta := (betaAlpha ri.pairs tradingDays).map Prod.fst,
      alpha_ann := (betaAlpha ri.pairs tradingDays).map Prod.snd,
      corr_with_benchmark := if 30 ≤ ri.pairs.length then ri.corr else none }
  else if sn = "benchmark_bh" then
    { regime := ri.name, series := sn, beta := some 1, alpha_ann := some 0,
      corr_with_benchmark := some 1 }
  else
    { regime := ri.name, series := sn, beta := none, alpha_ann := none,
      corr_with_benchmark := none }

/-- The row loop of regime_analysis.py lines 270-361: regimes with no days
are skipped, every kept regime emits one row per series. -/
def regimeRows (tradingDays : ℕ) (regs : List RegimeInput) : List RegRow :=
  regs.foldr (fun ri acc =>
    if ri.pairs.isEmpty then acc else (seriesNames.map (regRowFor tradingDays ri)) ++ acc) []

end GPWQuant

namespace GPWQuant

theorem prepareAux_length (rows : List SRow) : ∀ prev : ℚ,
    (prepareAux prev rows).length = rows.length := by
  induction rows with
  | nil => intro prev; rfl
  | cons r rs ih => intro prev; simp [prepareAux, ih]

theorem prepareAux_getD (rows : List SRow) : ∀ (prev : ℚ) (t : ℕ), t < rows.length →
    (prepareAux prev rows).getD t dummyDay =
      { ret_1d := (rows.getD t dummySRow).ret_1d,
        weight := clipWeight (rows.getD t dummySRow).signal,
        weight_lag1 :=
          if t = 0 then prev else clipWeight (rows.getD (t - 1) dummySRow).signal } := by
  induction rows with
  | nil => intro prev t ht; simp at ht
  | cons r rs ih =>
    intro prev t ht
    match t with
    | 0 => simp [prepareAux]
    | Nat.succ n =>
      have hn : n < rs.length := by simpa using ht
      have := ih (clipWeight r.signal) n hn
      simp only [prepareAux, List.getD_cons_succ]
      rw [this]
      match n with
      | 0 => simp
      | Nat.succ m => simp

theorem getD_map_of_lt {α β : Type} (f : α → β) (d : α) (l : List α) :
    ∀ t : ℕ, t < l.length → (l.map f).getD t (f d) = f (l.getD t d) := by
  induction l with
  | nil => intro t ht; simp at ht
  | cons x xs ih =>
    intro t ht
    match t with
    | 0 => simp
    | Nat.succ n =>
      have hn : n < xs.length := by simpa using ht
      simp only [List.map_cons, List.getD_cons_succ]
      exact ih n hn

theorem grossRetAt_eq (rows : List SRow) (t : ℕ) (ht : t < rows.length) :
    grossRetAt rows t = (rows.getD t dummySRow).ret_1d * weightLag1At rows t := by
  have hlen : t < (prepareDays rows).length := by
    simpa [prepareDays, prepareAux_length] using ht
  have hmap : (grossRets rows).getD t (grossRet dummyDay) =
      grossRet ((prepareDays rows).getD t dummyDay) :=
    getD_map_of_lt grossRet dummyDay (prepareDays rows) t hlen
  have hdummy : grossRet dummyDay = 0 := by simp [grossRet, dummyDay]
  have hprep := prepareAux_getD rows 0 t ht
  rw [grossRetAt, ← hdummy, hmap, prepareDays, hprep]
  by_cases h0 : t = 0
  · simp [grossRet, weightLag1At, h0]
  · simp [grossRet, weightLag1At, h0]

/-- C1.  No look-ahead (engine.py lines 87 and 105): on every day t of a
(date-sorted, single-symbol) panel, the gross return the engine computes
equals ret_1d_t times the previous observation's weight (0 for the first
observation); consequently two panels that agree everywhere except in the
day-t signal produce the same day-t gross_ret. -/
theorem no_lookahead_gross_ret (rows rows2 : List SRow) (t : ℕ)
    (ht : t < rows.length)
    (hother : ∀ i : ℕ, i ≠ t → rows.getD i dummySRow = rows2.getD i dummySRow)
    (hret : (rows.getD t dummySRow).ret_1d = (rows2.getD t dummySRow).ret_1d)
    (hlen : rows2.length = rows.length) :
    grossRetAt rows t = (rows.getD t dummySRow).ret_1d * weightLag1At rows t ∧
      grossRetAt rows t = grossRetAt rows2 t := by
  have h1 := grossRetAt_eq rows t ht
  have h2 := grossRetAt_eq rows2 t (hlen ▸ ht)
  refine ⟨h1, ?_⟩
  rw [h1, h2, ← hret]
  congr 1
  by_cases h0 : t = 0
  · simp [weightLag1At, h0]
  · have hne : t - 1 ≠ t := by omega
    simp only [weightLag1At, if_neg h0]
    rw [hother (t - 1) hne]

theorem getLastD_cumprodAux (l : List ℚ) : ∀ acc : ℚ,
    (cumprodAux acc l).getLastD acc = acc * l.prod := by
  induction l with
  | nil => intro acc; simp [cumprodAux]
  | cons x xs ih =>
    intro acc
    simp only [cumprodAux, List.getLastD_cons, List.prod_cons]
    rw [ih (acc * x), mul_assoc]

theorem netRets_eq_map (cfg : BacktestConfig) (rows : List SRow) :
    (netRets cfg rows).map (fun x => 1 + x) =
      (prepareDays rows).map
        (fun d => 1 + netRet (costPerTurnover cfg.commission_bps cfg.slippage_bps) d) := by
  simp [netRets, List.map_map, Function.comp]

theorem finalEquitySingle_eq_prod (cfg : BacktestConfig) (rows : List SRow) :
    finalEquitySingle cfg rows =
      cfg.initial_capital *
        ((prepareDays rows).map
          (fun d => 1 + netRet (costPerTurnover cfg.commission_bps cfg.slippage_bps) d)).prod := by
  rw [finalEquitySingle, equityList, getLastD_cumprodAux, netRets_eq_map]

theorem totalReturnSingle_eq_prod (cfg : BacktestConfig) (rows : List SRow)
    (hinit : cfg.initial_capital ≠ 0) :
    totalReturnSingle cfg rows =
      ((prepareDays rows).map
        (fun d => 1 + netRet (costPerTurnover cfg.commission_bps cfg.slippage_bps) d)).prod - 1 := by
  rw [totalReturnSingle, growthSingle, finalEquitySingle_eq_prod, mul_comm, mul_div_assoc,
    div_self hinit, mul_one]

theorem prod_map_nonneg {α : Type} (l : List α) (f : α → ℚ) (h : ∀ a ∈ l, 0 ≤ f a) :
    0 ≤ (l.map f).prod := by
  induction l with
  | nil => simp
  | cons x xs ih =>
    simp only [List.map_cons, List.prod_cons]
    exact mul_nonneg (h x (List.mem_cons_self x xs))
      (ih (fun a ha => h a (List.mem_cons_of_mem x ha)))

theorem prod_map_le_prod_map {α : Type} (l : List α) (f g : α → ℚ)
    (h0 : ∀ a ∈ l, 0 ≤ f a) (hle : ∀ a ∈ l, f a ≤ g a) :
    (l.map f).prod ≤ (l.map g).prod := by
  induction l with
  | nil => simp
  | cons x xs ih =>
    simp only [List.map_cons, List.prod_cons]
    have hx : x ∈ x :: xs := List.mem_cons_self x xs
    have htail0 : ∀ a ∈ xs, 0 ≤ f a := fun a ha => h0 a (List.mem_cons_of_mem x ha)
    have htaille : ∀ a ∈ xs, f a ≤ g a := fun a ha => hle a (List.mem_cons_of_mem x ha)
    exact mul_le_mul (hle x hx) (ih htail0 htaille) (prod_map_nonneg xs f htail0)
      (le_trans (h0 x hx) (hle x hx))

/-- C3 counterexample: two configurations identical except for
commission_bps (4500 vs 5000 bps, both nonnegative), run on the same
three-day panel containing a -100% day; the higher-cost run ends with a
strictly higher total_return (-1 versus -1.0495), because a daily factor
1 + net_ret is negative. -/
theorem cost_monotonicity_counterexample :
    totalReturnSingle { commission_bps := 5000, slippage_bps := 0 }
        [⟨0, 1⟩, ⟨-1, -1⟩, ⟨0, 1⟩] >
      totalReturnSingle { commission_bps := 4500, slippage_bps := 0 }
        [⟨0, 1⟩, ⟨-1, -1⟩, ⟨0, 1⟩] := by
  norm_num [totalReturnSingle, growthSingle, finalEquitySingle, equityList, netRets,
    prepareDays, prepareAux, netRet, grossRet, turnoverOf, clipWeight, costPerTurnover,
    cumprodAux]

/-- C3 (amended).  Cost monotonicity (engine.py lines 101-110 and 142-145):
for two configurations sharing the same (nonzero) initial capital and
differing only in the cost rate, with both rates nonnegative, the run
with the higher cost rate never has a strictly higher total_return,
PROVIDED every daily factor 1 + net_ret under the higher-cost
configuration is nonnegative (equity never goes through zero); the
counterexample shows the proviso is necessary. -/
theorem cost_monotonicity_amended (cfg cfg2 : BacktestConfig) (rows : List SRow)
    (hinit : cfg.initial_capital = cfg2.initial_capital)
    (hinit0 : cfg.initial_capital ≠ 0)
    (_hlow : 0 ≤ cfg.commission_bps + cfg.slippage_bps)
    (hle : cfg.commission_bps + cfg.slippage_bps ≤ cfg2.commission_bps + cfg2.slippage_bps)
    (hfac : ∀ d ∈ prepareDays rows,
      0 ≤ 1 + netRet (costPerTurnover cfg2.commission_bps cfg2.slippage_bps) d) :
    totalReturnSingle cfg2 rows ≤ totalReturnSingle cfg rows := by
  have hinit2 : cfg2.initial_capital ≠ 0 := hinit ▸ hinit0
  rw [totalReturnSingle_eq_prod cfg rows hinit0, totalReturnSingle_eq_prod cfg2 rows hinit2]
  have hcpt : costPerTurnover cfg.commission_bps cfg.slippage_bps ≤
      costPerTurnover cfg2.commission_bps cfg2.slippage_bps := by
    unfold costPerTurnover
    exact div_le_div_of_nonneg_right hle (by norm_num)
  refine sub_le_sub_right ?_ 1
  refine prod_map_le_prod_map (prepareDays rows) _ _ hfac ?_
  intro d _
  have hturn : 0 ≤ turnoverOf d := abs_nonneg _
  have := mul_le_mul_of_nonneg_left hcpt hturn
  simp only [netRet]
  linarith

/-- Witness for cost_monotonicity_amended: a one-day long panel under the
default fees versus doubled commission. -/
theorem cost_monotonicity_amended_witness :
    totalReturnSingle { commission_bps := 10 } [⟨1/10, 1⟩] ≤
      totalReturnSingle {} [⟨1/10, 1⟩] := by
  have hfac : ∀ d ∈ prepareDays [(⟨1/10, 1⟩ : SRow)],
      0 ≤ 1 + netRet (costPerTurnover (10 : ℚ) 2) d := by
    intro d hd
    simp only [prepareDays, prepareAux, List.mem_singleton] at hd
    subst hd
    norm_num [netRet, grossRet, turnoverOf, clipWeight, costPerTurnover]
  exact cost_monotonicity_amended {} { commission_bps := 10 } [⟨1/10, 1⟩]
    rfl (by norm_num) (by norm_num) (by norm_num) hfac

theorem finalEquityPortfolio_eq_prod (cfg : BacktestConfig) (groups : List DateGroup) :
    finalEquityPortfolio cfg groups = cfg.initial_capital * portGrowth cfg groups := by
  rw [finalEquityPortfolio, portEquityList, getLastD_cumprodAux, portGrowth]

/-- C4.  Summary return formulas (engine.py lines 142-148 and 295-298): in
both modes total_return = final_equity / initial_capital - 1, and the
annualized return the code computes, growth ^ (1 / (n / trading_days)),
equals the spec's growth ^ (trading_days / n) with
growth = final_equity / initial_capital and n the count of valid
net-return observations. -/
theorem summary_return_formulas (cfg : BacktestConfig) (rows : List SRow)
    (groups : List DateGroup) (hinit : cfg.initial_capital ≠ 0) :
    totalReturnSingle cfg rows = finalEquitySingle cfg rows / cfg.initial_capital - 1 ∧
      totalReturnPortfolio cfg groups =
        finalEquityPortfolio cfg groups / cfg.initial_capital - 1 ∧
      ((growthSingle cfg rows : ℝ) ^
          ((1 : ℝ) / ((nDaysSingle cfg rows : ℝ) / (cfg.trading_days_per_year : ℝ))) - 1 =
        ((finalEquitySingle cfg rows / cfg.initial_capital : ℚ) : ℝ) ^
          ((cfg.trading_days_per_year : ℝ) / (nDaysSingle cfg rows : ℝ)) - 1) ∧
      ((portGrowth cfg groups : ℝ) ^
          ((1 : ℝ) / ((nDaysPortfolio cfg groups : ℝ) / (cfg.trading_days_per_year : ℝ))) - 1 =
        ((finalEquityPortfolio cfg groups / cfg.initial_capital : ℚ) : ℝ) ^
          ((cfg.trading_days_per_year : ℝ) / (nDaysPortfolio cfg groups : ℝ)) - 1) := by
  have hport : finalEquityPortfolio cfg groups / cfg.initial_capital = portGrowth cfg groups := by
    rw [finalEquityPortfolio_eq_prod, mul_comm, mul_div_assoc, div_self hinit, mul_one]
  refine ⟨rfl, ?_, ?_, ?_⟩
  · rw [totalReturnPortfolio, hport]
  · rw [one_div_div]
    rfl
  · rw [one_div_div, hport]

/-- Witness for summary_return_formulas at the default configuration on a
one-day panel and a one-date one-symbol portfolio. -/
theorem summary_return_formulas_witness :
    ({} : BacktestConfig).initial_capital ≠ 0 ∧
      totalReturnSingle {} [⟨1/10, 1⟩] =
        finalEquitySingle {} [⟨1/10, 1⟩] / ({} : BacktestConfig).initial_capital - 1 ∧
      totalReturnPortfolio {} [[⟨0, 1/10, 1⟩]] =
        finalEquityPortfolio {} [[⟨0, 1/10, 1⟩]] / ({} : BacktestConfig).initial_capital - 1 :=
  ⟨by norm_num,
    (summary_return_formulas {} [⟨1/10, 1⟩] [[⟨0, 1/10, 1⟩]] (by norm_num)).1,
    (summary_return_formulas {} [⟨1/10, 1⟩] [[⟨0, 1/10, 1⟩]] (by norm_num)).2.1⟩

/-- Witness for no_lookahead_gross_ret: two concrete two-day panels that
differ only in the day-1 signal give the same day-1 gross return. -/
theorem no_lookahead_gross_ret_witness :
    grossRetAt [⟨1/10, 1⟩, ⟨2/10, 1⟩] 1 =
        (([⟨1/10, 1⟩, ⟨2/10, 1⟩] : List SRow).getD 1 dummySRow).ret_1d *
          weightLag1At [⟨1/10, 1⟩, ⟨2/10, 1⟩] 1 ∧
      grossRetAt [⟨1/10, 1⟩, ⟨2/10, 1⟩] 1 = grossRetAt [⟨1/10, 1⟩, ⟨2/10, -1⟩] 1 :=
  no_lookahead_gross_ret [⟨1/10, 1⟩, ⟨2/10, 1⟩] [⟨1/10, 1⟩, ⟨2/10, -1⟩] 1
    (by decide)
    (fun i hi => by
      match i with
      | 0 => rfl
      | 1 => exact absurd rfl hi
      | Nat.succ (Nat.succ n) => rfl)
    rfl
    rfl

theorem foldl_min_le_init (xs : List ℚ) : ∀ x : ℚ, xs.foldl min x ≤ x := by
  induction xs with
  | nil => intro x; exact le_refl x
  | cons y ys ih =>
    intro x
    calc (y :: ys).foldl min x = ys.foldl min (min x y) := rfl
    _ ≤ min x y := ih (min x y)
    _ ≤ x := min_le_left x y

theorem listMin_le_head (x : ℚ) (xs : List ℚ) : listMin (x :: xs) ≤ x :=
  foldl_min_le_init xs x

theorem listMin_of_all_zero (l : List ℚ) (h : ∀ x ∈ l, x = 0) : listMin l = 0 := by
  match l with
  | [] => rfl
  | x :: xs =>
    have hx : x = 0 := h x (List.mem_cons_self x xs)
    have haux : ∀ (ys : List ℚ) (a : ℚ), (∀ y ∈ ys, y = 0) → a = 0 → ys.foldl min a = 0 := by
      intro ys
      induction ys with
      | nil => intro a _ ha; exact ha
      | cons y ys ih =>
        intro a hy ha
        have hy0 : y = 0 := hy y (List.mem_cons_self y ys)
        have : min a y = 0 := by rw [ha, hy0, min_self]
        exact ih (min a y) (fun z hz => hy z (List.mem_cons_of_mem y hz)) this
    exact haux xs x (fun y hy => h y (List.mem_cons_of_mem x hy)) hx

theorem zipWith_self {α β : Type} (f : α → α → β) (l : List α) :
    List.zipWith f l l = l.map (fun a => f a a) := by
  induction l with
  | nil => rfl
  | cons x xs ih => simp [List.zipWith_cons_cons, ih]

theorem runningMaxAux_map_div (l : List ℚ) (k : ℚ) (hk : 0 < k) : ∀ m : ℚ,
    runningMaxAux (m / k) (l.map (fun x => x / k)) =
      (runningMaxAux m l).map (fun x => x / k) := by
  induction l with
  | nil => intro m; rfl
  | cons x xs ih =>
    intro m
    simp only [List.map_cons, runningMaxAux]
    rw [max_div_div_right (le_of_lt hk), ih (max m x)]

theorem runningMax_map_div (l : List ℚ) (k : ℚ) (hk : 0 < k) :
    runningMax (l.map (fun x => x / k)) = (runningMax l).map (fun x => x / k) := by
  match l with
  | [] => rfl
  | x :: xs =>
    simp only [List.map_cons, runningMax]
    rw [runningMaxAux_map_div xs k hk x]

theorem div_div_div_cancel (a b k : ℚ) (hk : k ≠ 0) : a / k / (b / k) = a / b := by
  rcases eq_or_ne b 0 with hb | hb
  · simp [hb]
  · field_simp

theorem drawdowns_map_div (l : List ℚ) (k : ℚ) (hk : 0 < k) :
    drawdowns (l.map (fun x => x / k)) = drawdowns l := by
  unfold drawdowns
  rw [runningMax_map_div l k hk, List.zipWith_map]
  have : (fun (a b : ℚ) => a / k / (b / k) - 1) = fun (a b : ℚ) => a / b - 1 := by
    funext a b
    rw [div_div_div_cancel a b k (ne_of_gt hk)]
  rw [this]

theorem runningMaxAux_of_chain (l : List ℚ) : ∀ m : ℚ,
    List.Chain (· ≤ ·) m l → runningMaxAux m l = l := by
  induction l with
  | nil => intro m _; rfl
  | cons x xs ih =>
    intro m hch
    rcases hch with _ | ⟨hmx, hxs⟩
    simp only [runningMaxAux, max_eq_right hmx]
    rw [ih x hxs]

theorem runningMax_of_chain (l : List ℚ) (h : l.Chain' (· ≤ ·)) : runningMax l = l := by
  match l with
  | [] => rfl
  | x :: xs =>
    simp only [runningMax]
    rw [runningMaxAux_of_chain xs x h]

theorem drawdowns_of_chain (l : List ℚ) (hch : l.Chain' (· ≤ ·))
    (hnz : ∀ e ∈ l, e ≠ 0) : ∀ d ∈ drawdowns l, d = 0 := by
  intro d hd
  rw [drawdowns, runningMax_of_chain l hch, zipWith_self] at hd
  rcases List.mem_map.mp hd with ⟨c, hc, hcd⟩
  rw [← hcd, div_self (hnz c hc), sub_self]

theorem maxDrawdownOf_core (init : ℚ) (equity : List ℚ) (hinit : 0 < init)
    (hne : equity ≠ []) :
    maxDrawdownOf init equity ≤ 0 ∧
      maxDrawdownOf init equity = listMin (drawdowns equity) ∧
      (equity.Chain' (· ≤ ·) → (∀ e ∈ equity, e ≠ 0) → maxDrawdownOf init equity = 0) := by
  have heq : maxDrawdownOf init equity = listMin (drawdowns equity) := by
    rw [maxDrawdownOf, drawdowns_map_div equity init hinit]
  refine ⟨?_, heq, ?_⟩
  · rw [heq]
    match equity, hne with
    | c :: cs, _ =>
      have hdd : drawdowns (c :: cs) =
          (c / c - 1) :: List.zipWith (fun x m => x / m - 1) cs (runningMaxAux c cs) := rfl
      rw [hdd]
      refine le_trans (listMin_le_head _ _) ?_
      rcases eq_or_ne c 0 with hc | hc
      · simp [hc]
      · rw [div_self hc]; norm_num
  · intro hch hnz
    rw [heq]
    exact listMin_of_all_zero _ (drawdowns_of_chain equity hch hnz)

theorem equityList_ne_nil (cfg : BacktestConfig) (rows : List SRow) (h : rows ≠ []) :
    equityList cfg rows ≠ [] := by
  match rows, h with
  | r :: rs, _ =>
    simp [equityList, netRets, prepareDays, prepareAux, cumprodAux]

theorem portEquityList_ne_nil (cfg : BacktestConfig) (groups : List DateGroup)
    (h : groups ≠ []) : portEquityList cfg groups ≠ [] := by
  match groups, h with
  | g :: gs, _ =>
    simp [portEquityList, portNetRets, portRun, portRunAux, cumprodAux]

/-- C7 counterexample: a two-day panel with 100% per-side costs wipes the
equity to exactly 0 on day one; the equity curve [0, 0] is monotonically
non-decreasing, yet the computed max_drawdown is -1 in the rational model
(0/0 = 0 junk value; NaN under IEEE floats), not the 0 the claim demands. -/
theorem max_drawdown_counterexample :
    (equityList { commission_bps := 10000, slippage_bps := 0 } [⟨0, 1⟩, ⟨0, 1⟩]).Chain'
        (· ≤ ·) ∧
      maxDrawdownSingle { commission_bps := 10000, slippage_bps := 0 } [⟨0, 1⟩, ⟨0, 1⟩] = -1 := by
  constructor
  · norm_num [equityList, netRets, prepareDays, prepareAux, netRet, grossRet, turnoverOf,
      clipWeight, costPerTurnover, cumprodAux, List.chain'_cons]
  · norm_num [maxDrawdownSingle, maxDrawdownOf, equityList, netRets, prepareDays, prepareAux,
      netRet, grossRet, turnoverOf, clipWeight, costPerTurnover, cumprodAux, drawdowns,
      runningMax, runningMaxAux, listMin]

/-- C7 (amended).  Drawdown properties (engine.py lines 153-164 and
303-314) in both modes, for a positive initial capital and a nonempty
panel: max_drawdown is always <= 0 and equals the minimum of
equity / running_max(equity) - 1 over the curve; it equals exactly 0 for a
monotonically non-decreasing equity curve PROVIDED the curve never touches
0 (the counterexample shows a non-decreasing curve through 0 yields a
nonzero value). -/
theorem max_drawdown_properties (cfg : BacktestConfig) (rows : List SRow)
    (groups : List DateGroup) (hinit : 0 < cfg.initial_capital) (hrows : rows ≠ [])
    (hgroups : groups ≠ []) :
    maxDrawdownSingle cfg rows ≤ 0 ∧
      maxDrawdownSingle cfg rows = listMin (drawdowns (equityList cfg rows)) ∧
      ((equityList cfg rows).Chain' (· ≤ ·) → (∀ e ∈ equityList cfg rows, e ≠ 0) →
        maxDrawdownSingle cfg rows = 0) ∧
      maxDrawdownPortfolio cfg groups ≤ 0 ∧
      maxDrawdownPortfolio cfg groups = listMin (drawdowns (portEquityList cfg groups)) ∧
      ((portEquityList cfg groups).Chain' (· ≤ ·) →
        (∀ e ∈ portEquityList cfg groups, e ≠ 0) → maxDrawdownPortfolio cfg groups = 0) := by
  have h1 := maxDrawdownOf_core cfg.initial_capital (equityList cfg rows) hinit
    (equityList_ne_nil cfg rows hrows)
  have h2 := maxDrawdownOf_core cfg.initial_capital (portEquityList cfg groups) hinit
    (portEquityList_ne_nil cfg groups hgroups)
  exact ⟨h1.1, h1.2.1, h1.2.2, h2.1, h2.2.1, h2.2.2⟩

/-- C5 counterexample: the panel stores the symbol as PZU (uppercase) and
the caller requests PZU; the request is lowercased to pzu but the panel
column is not, so the filter matches nothing and the engine raises the
no-data error even though a row for that symbol (case-insensitively)
exists.  The claim's both-sides case-insensitivity is false. -/
theorem symbol_filter_counterexample :
    noDataError [⟨['P', 'Z', 'U'], 0, 1⟩] ['P', 'Z', 'U'] = true ∧
      strLower (⟨['P', 'Z', 'U'], 0, 1⟩ : FRow).symbol = strLower ['P', 'Z', 'U'] := by
  constructor
  · rfl
  · rfl

/-- C5 (amended).  Symbol filtering (engine.py lines 95-99): the requested
symbol is matched case-insensitively (it is lowercased first), but a panel
row matches only when its stored symbol is literally the lowercased
request — rows whose stored symbol contains uppercase never match; the
fatal no-data error is raised if and only if no row matches. -/
theorem symbol_filter_amended (rows : List FRow) (symbol : List Char) :
    (∀ r : FRow, r ∈ filterSymbol rows symbol ↔ r ∈ rows ∧ r.symbol = strLower symbol) ∧
      (noDataError rows symbol = true ↔ ∀ r ∈ rows, r.symbol ≠ strLower symbol) := by
  constructor
  · intro r
    simp [filterSymbol, List.mem_filter]
  · simp [noDataError, filterSymbol, List.isEmpty_iff, List.filter_eq_nil_iff]

/-- Witness for symbol_filter_amended: a lowercase-stored row is found
under an uppercase request. -/
theorem symbol_filter_amended_witness :
    (⟨['p', 'z', 'u'], 0, 1⟩ : FRow) ∈
      filterSymbol [⟨['p', 'z', 'u'], 0, 1⟩] ['P', 'Z', 'U'] :=
  ((symbol_filter_amended [⟨['p', 'z', 'u'], 0, 1⟩] ['P', 'Z', 'U']).1 _).mpr
    ⟨List.mem_singleton.mpr rfl, by decide⟩

/-- C6 counterexample: a panel missing both the symbol and ret_1d columns
makes run_single_symbol raise the pandas KeyError on symbol (raised by
df[df[quote-symbol] == symbol] before _prepare_df validates), an error
that does not name the other missing column ret_1d, contradicting the
claim that the raised error names exactly the missing columns in both
entry points. -/
theorem missing_columns_counterexample :
    runSingleSymbolCheck ["date", "close", "signal"] =
        Except.error (EngineError.keyError "symbol") ∧
      missingCols ["date", "close", "signal"] = ["symbol", "ret_1d"] ∧
      runSingleSymbolCheck ["date", "close", "signal"] ≠
        Except.error (EngineError.missingColumns ["symbol", "ret_1d"]) := by
  refine ⟨rfl, by decide, ?_⟩
  intro h
  rw [show runSingleSymbolCheck ["date", "close", "signal"] =
      Except.error (EngineError.keyError "symbol") from rfl] at h
  simp at h

/-- C6 (amended).  Missing-column validation (engine.py lines 74-77,
95-96): run_portfolio raises a fatal error naming exactly the missing
required columns and succeeds (past validation) exactly when none are
missing; run_single_symbol behaves identically whenever the symbol column
is present, but when the symbol column itself is missing it raises a
pandas KeyError naming only symbol, before the validation runs. -/
theorem missing_columns_amended (cols : List String) :
    (runPortfolioCheck cols = Except.ok () ↔ missingCols cols = []) ∧
      (missingCols cols ≠ [] →
        runPortfolioCheck cols = Except.error (EngineError.missingColumns (missingCols cols))) ∧
      (∀ c : String, c ∈ missingCols cols ↔ c ∈ requiredCols ∧ c ∉ cols) ∧
      (cols.contains "symbol" = true → runSingleSymbolCheck cols = runPortfolioCheck cols) ∧
      (cols.contains "symbol" = false →
        runSingleSymbolCheck cols = Except.error (EngineError.keyError "symbol")) := by
  refine ⟨?_, ?_, ?_, ?_, ?_⟩
  · rw [runPortfolioCheck, prepareDfCheck]
    by_cases h : missingCols cols = [] <;> simp [h]
  · intro h
    rw [runPortfolioCheck, prepareDfCheck, if_neg h]
  · intro c
    simp [missingCols, List.mem_filter]
  · intro h
    rw [runSingleSymbolCheck, if_pos h, runPortfolioCheck]
  · intro h
    rw [runSingleSymbolCheck, h]
    rfl

/-- Witness for missing_columns_amended: a panel missing ret_1d and signal
(but keeping symbol) gets the ValueError naming exactly those two. -/
theorem missing_columns_amended_witness :
    missingCols ["date", "symbol", "close"] ≠ [] ∧
      runPortfolioCheck ["date", "symbol", "close"] =
        Except.error (EngineError.missingColumns (missingCols ["date", "symbol", "close"])) :=
  ⟨by decide, (missing_columns_amended ["date", "symbol", "close"]).2.1 (by decide)⟩

theorem pctChangeAux_length (cs : List ℚ) : ∀ prev : ℚ,
    (pctChangeAux prev cs).length = cs.length := by
  induction cs with
  | nil => intro prev; rfl
  | cons c cs ih => intro prev; simp [pctChangeAux, ih]

theorem bmRets_length (closes : List ℚ) : (bmRets closes).length = closes.length := by
  match closes with
  | [] => rfl
  | c :: cs => simp [bmRets, pctChangeAux_length]

theorem pctChangeAux_getD (cs : List ℚ) : ∀ (prev : ℚ) (i : ℕ), i < cs.length →
    (pctChangeAux prev cs).getD i 0 =
      cs.getD i 0 / (if i = 0 then prev else cs.getD (i - 1) 0) - 1 := by
  induction cs with
  | nil => intro prev i hi; simp at hi
  | cons c cs ih =>
    intro prev i hi
    match i with
    | 0 => simp [pctChangeAux]
    | Nat.succ n =>
      have hn : n < cs.length := by simpa using hi
      simp only [pctChangeAux, List.getD_cons_succ]
      rw [ih c n hn]
      match n with
      | 0 => simp
      | Nat.succ m => simp

theorem lookup_eq_none_iff (l : List (ℕ × ℚ)) (a : ℕ) :
    l.lookup a = none ↔ a ∉ l.map Prod.fst := by
  induction l with
  | nil => simp
  | cons p ps ih =>
    rcases p with ⟨k, v⟩
    simp only [List.lookup, List.map_cons, List.mem_cons]
    by_cases hk : a = k
    · subst hk
      simp
    · have hbeq : (a == k) = false := beq_eq_false_iff_ne.mpr hk
      rw [hbeq]
      simp [ih, hk]

theorem bmWithRet_keys (bm : List (ℕ × ℚ)) :
    (bmWithRet bm).map Prod.fst = bm.map Prod.fst := by
  rw [bmWithRet]
  exact List.map_fst_zip _ _ (by rw [bmRets_length]; simp)

/-- C8.  Benchmark comparator (run_backtest.py lines 222-237): bm_ret is
the close's percent change with the first value treated as zero; the
comparator raises its fatal error if and only if the daily and benchmark
date sets are disjoint (the inner join is empty); and on every joined row
active_ret = net_ret - bm_ret. -/
theorem benchmark_comparator_spec (daily bm : List (ℕ × ℚ)) (closes : List ℚ) :
    (closes ≠ [] → (bmRets closes).getD 0 0 = 0) ∧
      (∀ i : ℕ, i + 1 < closes.length →
        (bmRets closes).getD (i + 1) 0 = closes.getD (i + 1) 0 / closes.getD i 0 - 1) ∧
      ((∃ e, compareBenchmark daily bm = Except.error e) ↔
        ∀ p ∈ daily, ∀ q ∈ bm, p.1 ≠ q.1) ∧
      (∀ res, compareBenchmark daily bm = Except.ok res →
        ∀ x ∈ res, x.2.2.2 = x.2.1 - x.2.2.1) := by
  refine ⟨?_, ?_, ?_, ?_⟩
  · intro hne
    match closes, hne with
    | c :: cs, _ => rfl
  · intro i hi
    match closes, hi with
    | c :: cs, hi =>
      have hn : i < cs.length := by simpa using hi
      simp only [bmRets, List.getD_cons_succ]
      rw [pctChangeAux_getD cs c i hn]
      match i with
      | 0 => simp
      | Nat.succ m => simp
  · have hempty : (innerJoinBm daily (bmWithRet bm)).isEmpty = true ↔
        ∀ p ∈ daily, ∀ q ∈ bm, p.1 ≠ q.1 := by
      rw [List.isEmpty_iff, innerJoinBm, List.filterMap_eq_nil_iff]
      constructor
      · intro h p hp q hq hpq
        have hnone := h p hp
        rw [Option.map_eq_none', lookup_eq_none_iff, bmWithRet_keys] at hnone
        have hqmem : q.1 ∈ bm.map Prod.fst := List.mem_map_of_mem Prod.fst hq
        rw [← hpq] at hqmem
        exact hnone hqmem
      · intro h p hp
        rw [Option.map_eq_none', lookup_eq_none_iff, bmWithRet_keys]
        intro hmem
        rcases List.mem_map.mp hmem with ⟨q, hq, hq1⟩
        exact h p hp q hq hq1.symm
    rw [compareBenchmark]
    by_cases hc : (innerJoinBm daily (bmWithRet bm)).isEmpty = true
    · rw [if_pos hc]
      exact iff_of_true ⟨_, rfl⟩ (hempty.mp hc)
    · rw [if_neg hc]
      constructor
      · intro ⟨e, he⟩
        exact Except.noConfusion he
      · intro h
        exact absurd (hempty.mpr h) hc
  · intro res hres x hx
    rw [compareBenchmark] at hres
    by_cases hc : (innerJoinBm daily (bmWithRet bm)).isEmpty = true
    · rw [if_pos hc] at hres
      exact Except.noConfusion hres
    · rw [if_neg hc] at hres
      have hres2 : (innerJoinBm daily (bmWithRet bm)).map
          (fun p => (p.1, p.2.1, p.2.2, p.2.1 - p.2.2)) = res := by
        simpa using hres
      rw [← hres2] at hx
      rcases List.mem_map.mp hx with ⟨p, _, hpx⟩
      rw [← hpx]

/-- Witness for benchmark_comparator_spec: one overlapping date; the
joined row carries active_ret = net_ret - bm_ret, and the first
benchmark return is 0. -/
theorem benchmark_comparator_spec_witness :
    ([1, 2, 3] : List ℚ) ≠ [] ∧
      (bmRets [(1 : ℚ), 2, 3]).getD 0 0 = 0 :=
  ⟨by simp,
    (benchmark_comparator_spec [(0, 1/100)] [(0, 10)] [(1 : ℚ), 2, 3]).1 (by simp)⟩

theorem lookup_mem {β : Type} (l : List (ℕ × β)) (a : ℕ) (b : β) :
    l.lookup a = some b → (a, b) ∈ l := by
  induction l with
  | nil => intro h; exact Option.noConfusion h
  | cons p ps ih =>
    rcases p with ⟨k, v⟩
    intro h
    by_cases hk : a = k
    · subst hk
      rw [List.lookup, beq_self_eq_true] at h
      rw [Option.some.injEq] at h
      rw [← h]
      exact List.mem_cons_self _ _
    · rw [List.lookup, beq_eq_false_iff_ne.mpr hk] at h
      exact List.mem_cons_of_mem _ (ih h)

theorem bull_bear_exclusive (c : ℚ) (ma s : Option ℚ) :
    ¬(bullCond c ma s = true ∧ bearCond c ma s = true) := by
  rintro ⟨hb, hr⟩
  rcases ma with _ | m
  · simp [bullCond] at hb
  · simp only [bullCond, Option.elim, Bool.and_eq_true, decide_eq_true_eq] at hb
    simp only [bearCond, Option.elim, Bool.and_eq_true, decide_eq_true_eq] at hr
    exact lt_asymm hb.1 hr.1

theorem regimeLabel_cases (c : ℚ) (ma s : Option ℚ) :
    (regimeLabel c ma s = "BULL" ∨ regimeLabel c ma s = "BEAR" ∨
        regimeLabel c ma s = "NORMAL") ∧
      (regimeLabel c ma s = "BULL" ↔ bullCond c ma s = true) ∧
      (regimeLabel c ma s = "BEAR" ↔ bearCond c ma s = true) ∧
      (regimeLabel c ma s = "NORMAL" ↔
        (bullCond c ma s = false ∧ bearCond c ma s = false)) := by
  by_cases hb : bullCond c ma s = true
  · have hr : bearCond c ma s = false := by
      rcases Bool.eq_false_or_eq_true (bearCond c ma s) with h | h
      · exact absurd ⟨hb, h⟩ (bull_bear_exclusive c ma s)
      · exact h
    rw [regimeLabel, if_pos hb]
    refine ⟨Or.inl rfl, iff_of_true rfl hb, ?_, ?_⟩
    · exact iff_of_false (by decide) (by simp [hr])
    · exact iff_of_false (by decide) (by simp [hb])
  · have hb2 : bullCond c ma s = false := by
      rcases Bool.eq_false_or_eq_true (bullCond c ma s) with h | h
      · exact absurd h hb
      · exact h
    by_cases hr : bearCond c ma s = true
    · rw [regimeLabel, if_neg hb, if_pos hr]
      refine ⟨Or.inr (Or.inl rfl), ?_, iff_of_true rfl hr, ?_⟩
      · exact iff_of_false (by decide) (by simp [hb2])
      · exact iff_of_false (by decide) (by simp [hr])
    · have hr2 : bearCond c ma s = false := by
        rcases Bool.eq_false_or_eq_true (bearCond c ma s) with h | h
        · exact absurd h hr
        · exact h
      rw [regimeLabel, if_neg hb, if_neg hr]
      refine ⟨Or.inr (Or.inr rfl), ?_, ?_, iff_of_true rfl ⟨hb2, hr2⟩⟩
      · exact iff_of_false (by decide) (by simp [hb2])
      · exact iff_of_false (by decide) (by simp [hr2])

/-- C9.  Regime labeling (regime_analysis.py lines 236-238): every row of
the merged benchmark+daily table carries exactly one of the labels BULL,
BEAR, NORMAL; the label is BULL exactly when close > moving average and
slope > 0 (NaN comparisons false), BEAR exactly when close < moving
average and slope < 0, and NORMAL in every other case — so the three
regime-filtered subsets are pairwise disjoint and jointly exhaustive. -/
theorem regime_labels_partition (w k : ℕ) (daily bm : List (ℕ × ℚ)) :
    ∀ r ∈ mergedRegimes w k daily bm,
      (r.2.2.2.2.2 = "BULL" ∨ r.2.2.2.2.2 = "BEAR" ∨ r.2.2.2.2.2 = "NORMAL") ∧
        (r.2.2.2.2.2 = "BULL" ↔ bullCond r.2.2.1 r.2.2.2.1 r.2.2.2.2.1 = true) ∧
        (r.2.2.2.2.2 = "BEAR" ↔ bearCond r.2.2.1 r.2.2.2.1 r.2.2.2.2.1 = true) ∧
        (r.2.2.2.2.2 = "NORMAL" ↔
          (bullCond r.2.2.1 r.2.2.2.1 r.2.2.2.2.1 = false ∧
            bearCond r.2.2.1 r.2.2.2.1 r.2.2.2.2.1 = false)) := by
  intro r hr
  rw [mergedRegimes, List.mem_filterMap] at hr
  rcases hr with ⟨p, _, hmap⟩
  rcases Option.map_eq_some'.mp hmap with ⟨q, hlk, hq⟩
  have hqmem : (p.1, q) ∈ bmIndicators w k bm := lookup_mem _ _ _ hlk
  rw [bmIndicators, List.mem_map] at hqmem
  rcases hqmem with ⟨z, _, hz⟩
  have hq2 : q = (z.2.1, z.2.2.1, z.2.2.2, regimeLabel z.2.1 z.2.2.1 z.2.2.2) :=
    congrArg Prod.snd hz.symm
  rw [← hq, hq2]
  exact regimeLabel_cases z.2.1 z.2.2.1 z.2.2.2

/-- Witness for regime_labels_partition on a one-row merge whose label
computes to NORMAL. -/
theorem regime_labels_partition_witness :
    ((0 : ℕ), (0 : ℚ), (5 : ℚ), some (5 : ℚ), some (0 : ℚ), "NORMAL") ∈
        mergedRegimes 1 0 [(0, 0)] [(0, 5)] ∧
      (("NORMAL" : String) = "BULL" ∨ ("NORMAL" : String) = "BEAR" ∨
        ("NORMAL" : String) = "NORMAL") := by
  have hmem : ((0 : ℕ), (0 : ℚ), (5 : ℚ), some (5 : ℚ), some (0 : ℚ), "NORMAL") ∈
      mergedRegimes 1 0 [(0, 0)] [(0, 5)] := by
    simp [mergedRegimes, bmIndicators, rollingMean, diffK, optSub, regimeLabel, bullCond,
      bearCond, List.lookup]
  exact ⟨hmem, (regime_labels_partition 1 0 [(0, 0)] [(0, 5)] _ hmem).1⟩

theorem regRowFor_fields (tdpy : ℕ) (ri : RegimeInput) (sn : String) :
    ((regRowFor tdpy ri sn).series = "benchmark_bh" →
        (regRowFor tdpy ri sn).beta = some 1 ∧ (regRowFor tdpy ri sn).alpha_ann = some 0 ∧
          (regRowFor tdpy ri sn).corr_with_benchmark = some 1) ∧
      ((regRowFor tdpy ri sn).series = "active" →
        (regRowFor tdpy ri sn).beta = none ∧ (regRowFor tdpy ri sn).alpha_ann = none ∧
          (regRowFor tdpy ri sn).corr_with_benchmark = none) ∧
      ((regRowFor tdpy ri sn).series = "strategy_net" →
        (regRowFor tdpy ri sn).beta = (betaAlpha ri.pairs tdpy).map Prod.fst ∧
          (regRowFor tdpy ri sn).alpha_ann = (betaAlpha ri.pairs tdpy).map Prod.snd ∧
          (regRowFor tdpy ri sn).corr_with_benchmark =
            if 30 ≤ ri.pairs.length then ri.corr else none) := by
  have hser : (regRowFor tdpy ri sn).series = sn := by
    rw [regRowFor]
    by_cases h1 : sn = "strategy_net"
    · rw [if_pos h1]
    · rw [if_neg h1]
      by_cases h2 : sn = "benchmark_bh"
      · rw [if_pos h2]
      · rw [if_neg h2]
  by_cases h1 : sn = "strategy_net"
  · subst h1
    rw [regRowFor]
    refine ⟨fun h => absurd (hser.symm.trans h) (by decide), fun h => absurd (hser.symm.trans h) (by decide), fun _ => ?_⟩
    simp
  · by_cases h2 : sn = "benchmark_bh"
    · subst h2
      rw [regRowFor]
      refine ⟨fun _ => ?_, fun h => absurd (hser.symm.trans h) (by decide), fun h => absurd (hser.symm.trans h) (by decide)⟩
      simp
    · refine ⟨fun h => absurd (hser.symm.trans h) h2, fun _ => ?_, fun h => absurd (hser.symm.trans h) h1⟩
      rw [regRowFor, if_neg h1, if_neg h2]
      exact ⟨rfl, rfl, rfl⟩

/-- C10.  Regime output rows (regime_analysis.py lines 336-359): every
benchmark buy-and-hold row reports the constants beta = 1.0,
alpha_ann = 0.0, corr_with_benchmark = 1.0 regardless of the regime's
data; every active row reports all three as NaN; and every strategy_net
row carries the values computed by beta_alpha (and the correlation,
gated on a 30-observation sample) for its regime. -/
theorem regime_beta_fields (tdpy : ℕ) (regs : List RegimeInput) :
    ∀ row ∈ regimeRows tdpy regs,
      (row.series = "benchmark_bh" →
        row.beta = some 1 ∧ row.alpha_ann = some 0 ∧ row.corr_with_benchmark = some 1) ∧
        (row.series = "active" →
          row.beta = none ∧ row.alpha_ann = none ∧ row.corr_with_benchmark = none) ∧
        (row.series = "strategy_net" →
          ∃ ri ∈ regs, row.beta = (betaAlpha ri.pairs tdpy).map Prod.fst ∧
            row.alpha_ann = (betaAlpha ri.pairs tdpy).map Prod.snd ∧
            row.corr_with_benchmark = if 30 ≤ ri.pairs.length then ri.corr else none) := by
  induction regs with
  | nil => intro row hrow; exact absurd hrow (by simp [regimeRows])
  | cons ri rest ih =>
    intro row hrow
    rw [regimeRows, List.foldr_cons] at hrow
    by_cases hemp : ri.pairs.isEmpty = true
    · rw [if_pos hemp] at hrow
      have hrec := ih row (by rw [regimeRows]; exact hrow)
      refine ⟨hrec.1, hrec.2.1, fun hs => ?_⟩
      rcases hrec.2.2 hs with ⟨rj, hrj, hfields⟩
      exact ⟨rj, List.mem_cons_of_mem ri hrj, hfields⟩
    · rw [if_neg hemp] at hrow
      rcases List.mem_append.mp hrow with hin | hin
      · rcases List.mem_map.mp hin with ⟨sn, _, hsn⟩
        have hf := regRowFor_fields tdpy ri sn
        rw [hsn] at hf
        refine ⟨hf.1, hf.2.1, fun hs => ⟨ri, List.mem_cons_self ri rest, hf.2.2 hs⟩⟩
      · have hrec := ih row (by rw [regimeRows]; exact hin)
        refine ⟨hrec.1, hrec.2.1, fun hs => ?_⟩
        rcases hrec.2.2 hs with ⟨rj, hrj, hfields⟩
        exact ⟨rj, List.mem_cons_of_mem ri hrj, hfields⟩

/-- Witness for regime_beta_fields: a concrete one-regime input; its
benchmark buy-and-hold row carries the constants. -/
theorem regime_beta_fields_witness :
    regRowFor 252 ⟨"BULL", [((0 : ℚ), (0 : ℚ))], none⟩ "benchmark_bh" ∈
        regimeRows 252 [⟨"BULL", [((0 : ℚ), (0 : ℚ))], none⟩] ∧
      ((regRowFor 252 ⟨"BULL", [((0 : ℚ), (0 : ℚ))], none⟩ "benchmark_bh").beta = some 1 ∧
        (regRowFor 252 ⟨"BULL", [((0 : ℚ), (0 : ℚ))], none⟩ "benchmark_bh").alpha_ann = some 0 ∧
        (regRowFor 252 ⟨"BULL", [((0 : ℚ), (0 : ℚ))], none⟩
            "benchmark_bh").corr_with_benchmark = some 1) := by
  have hmem : regRowFor 252 ⟨"BULL", [((0 : ℚ), (0 : ℚ))], none⟩ "benchmark_bh" ∈
      regimeRows 252 [⟨"BULL", [((0 : ℚ), (0 : ℚ))], none⟩] := by
    rw [regimeRows, List.foldr_cons, List.foldr_nil, if_neg (by decide)]
    simp [seriesNames]
  exact ⟨hmem,
    (regime_beta_fields 252 [⟨"BULL", [((0 : ℚ), (0 : ℚ))], none⟩] _ hmem).1 rfl⟩

theorem sideBudgets_nonneg (maxLev : ℚ) (nL nS : ℕ) (hmax : 0 ≤ maxLev) :
    0 ≤ (sideBudgets maxLev nL nS).1 ∧ 0 ≤ (sideBudgets maxLev nL nS).2 := by
  rw [sideBudgets]
  by_cases h1 : 0 < nL ∧ 0 < nS
  · rw [if_pos h1]
    exact ⟨by linarith, by linarith⟩
  · rw [if_neg h1]
    by_cases h2 : 0 < nL
    · rw [if_pos h2]; exact ⟨hmax, le_refl 0⟩
    · rw [if_neg h2]
      by_cases h3 : 0 < nS
      · rw [if_pos h3]; exact ⟨le_refl 0, hmax⟩
      · rw [if_neg h3]; exact ⟨le_refl 0, le_refl 0⟩

theorem sum_abs_rowPortWeight_aux (l : List PRow) (lg sg : ℚ) (nL nS : ℕ)
    (hlg : 0 ≤ lg) (hsg : 0 ≤ sg) :
    (l.map (fun r => |rowPortWeight lg sg nL nS r|)).sum =
      (l.countP (fun r => decide (0 < clipWeight r.signal)) : ℚ) * (lg / (nL : ℚ)) +
        (l.countP (fun r => decide (clipWeight r.signal < 0)) : ℚ) * (sg / (nS : ℚ)) := by
  induction l with
  | nil => simp
  | cons r rs ih =>
    simp only [List.map_cons, List.sum_cons, List.countP_cons, ih, decide_eq_true_eq]
    by_cases h1 : 0 < clipWeight r.signal
    · have h2 : ¬clipWeight r.signal < 0 := not_lt_of_gt h1
      rw [rowPortWeight, if_pos h1, if_pos h1, if_neg h2,
        abs_of_nonneg (div_nonneg hlg (Nat.cast_nonneg nL))]
      push_cast
      ring
    · by_cases h2 : clipWeight r.signal < 0
      · rw [rowPortWeight, if_neg h1, if_pos h2, if_neg h1, if_pos h2, abs_neg,
          abs_of_nonneg (div_nonneg hsg (Nat.cast_nonneg nS))]
        push_cast
        ring
      · rw [rowPortWeight, if_neg h1, if_neg h2, if_neg h1, if_neg h2, abs_zero]
        push_cast
        ring

theorem sum_abs_groupPortWeights (g : DateGroup) (maxLev : ℚ) (hmax : 0 ≤ maxLev) :
    (g.map (fun r =>
      |rowPortWeight (sideBudgets maxLev (longCount g) (shortCount g)).1
        (sideBudgets maxLev (longCount g) (shortCount g)).2
        (longCount g) (shortCount g) r|)).sum ≤ maxLev := by
  have hb := sideBudgets_nonneg maxLev (longCount g) (shortCount g) hmax
  rw [sum_abs_rowPortWeight_aux g _ _ (longCount g) (shortCount g) hb.1 hb.2]
  rw [show g.countP (fun r => decide (0 < clipWeight r.signal)) = longCount g from rfl,
    show g.countP (fun r => decide (clipWeight r.signal < 0)) = shortCount g from rfl]
  have hterm : ∀ (n : ℕ) (b : ℚ), 0 ≤ b → (n : ℚ) * (b / (n : ℚ)) ≤ b := by
    intro n b hb0
    rcases Nat.eq_zero_or_pos n with hn | hn
    · subst hn; simp [hb0]
    · have hne : (n : ℚ) ≠ 0 := Nat.cast_ne_zero.mpr (Nat.pos_iff_ne_zero.mp hn)
      rw [mul_div_cancel₀ b hne]
  rw [sideBudgets]
  by_cases h1 : 0 < longCount g ∧ 0 < shortCount g
  · rw [if_pos h1]
    have he1 : (longCount g : ℚ) ≠ 0 := Nat.cast_ne_zero.mpr (Nat.pos_iff_ne_zero.mp h1.1)
    have he2 : (shortCount g : ℚ) ≠ 0 := Nat.cast_ne_zero.mpr (Nat.pos_iff_ne_zero.mp h1.2)
    rw [mul_div_cancel₀ _ he1, mul_div_cancel₀ _ he2]
    linarith
  · rw [if_neg h1]
    by_cases h2 : 0 < longCount g
    · rw [if_pos h2]
      have he1 : (longCount g : ℚ) ≠ 0 := Nat.cast_ne_zero.mpr (Nat.pos_iff_ne_zero.mp h2)
      rw [mul_div_cancel₀ _ he1]
      have : (shortCount g : ℚ) * (0 / (shortCount g : ℚ)) = 0 := by simp
      rw [this]
      linarith
    · rw [if_neg h2]
      by_cases h3 : 0 < shortCount g
      · rw [if_pos h3]
        have he2 : (shortCount g : ℚ) ≠ 0 := Nat.cast_ne_zero.mpr (Nat.pos_iff_ne_zero.mp h3)
        rw [mul_div_cancel₀ _ he2]
        have : (longCount g : ℚ) * (0 / (longCount g : ℚ)) = 0 := by simp
        rw [this]
        linarith
      · rw [if_neg h3]
        simp [hmax]

theorem lookup_map_key {β : Type} (g : List PRow) (f : PRow → β)
    (hnd : (g.map PRow.sym).Nodup) (r : PRow) (hr : r ∈ g) :
    (g.map (fun x => (x.sym, f x))).lookup r.sym = some (f r) := by
  induction g with
  | nil => cases hr
  | cons x xs ih =>
    rcases List.mem_cons.mp hr with h | h
    · subst h
      simp only [List.map_cons, List.lookup, beq_self_eq_true]
    · have hx : x.sym ∉ xs.map PRow.sym := (List.nodup_cons.mp hnd).1
      have hne : r.sym ≠ x.sym := by
        intro hcontra
        exact hx (hcontra ▸ List.mem_map_of_mem PRow.sym h)
      simp only [List.map_cons, List.lookup]
      rw [beq_eq_false_iff_ne.mpr hne]
      exact ih (List.nodup_cons.mp hnd).2 h

theorem updState_on_group (st : ℕ → ℚ) (maxLev : ℚ) (g : DateGroup)
    (hnd : (g.map PRow.sym).Nodup) (r : PRow) (hr : r ∈ g) :
    updState st (groupPortWeights maxLev g) r.sym =
      rowPortWeight (sideBudgets maxLev (longCount g) (shortCount g)).1
        (sideBudgets maxLev (longCount g) (shortCount g)).2
        (longCount g) (shortCount g) r := by
  rw [updState, groupPortWeights, lookup_map_key g _ hnd r hr]
  rfl

theorem portRunAux_leverage (cpt maxLev : ℚ) (hmax : 0 ≤ maxLev) (L : List ℕ)
    (hnd : L.Nodup) :
    ∀ (groups : List DateGroup) (st : ℕ → ℚ),
      (∀ g ∈ groups, g.map PRow.sym = L) →
      (L.map (fun s => |st s|)).sum ≤ maxLev →
      ∀ a ∈ portRunAux cpt maxLev st groups, a.gross_leverage ≤ maxLev := by
  intro groups
  induction groups with
  | nil => intro st _ _ a ha; cases ha
  | cons g gs ih =>
    intro st hbal hin a ha
    have hgL : g.map PRow.sym = L := hbal g (List.mem_cons_self g gs)
    rcases List.mem_cons.mp ha with h | h
    · subst h
      show (g.map (fun r => |st r.sym|)).sum ≤ maxLev
      have hsum : (g.map (fun r => |st r.sym|)).sum = (L.map (fun s => |st s|)).sum := by
        rw [← hgL, List.map_map]
        rfl
      rw [hsum]
      exact hin
    · have hndg : (g.map PRow.sym).Nodup := hgL ▸ hnd
      have hstep : (L.map (fun s => |updState st (groupPortWeights maxLev g) s|)).sum ≤
          maxLev := by
        have htrans : (L.map (fun s => |updState st (groupPortWeights maxLev g) s|)).sum =
            (g.map (fun r => |updState st (groupPortWeights maxLev g) r.sym|)).sum := by
          rw [← hgL, List.map_map]
          rfl
        rw [htrans]
        have hcong : g.map (fun r => |updState st (groupPortWeights maxLev g) r.sym|) =
            g.map (fun r =>
              |rowPortWeight (sideBudgets maxLev (longCount g) (shortCount g)).1
                (sideBudgets maxLev (longCount g) (shortCount g)).2
                (longCount g) (shortCount g) r|) := by
          apply List.map_congr_left
          intro r hr
          rw [updState_on_group st maxLev g hndg r hr]
        rw [hcong]
        exact sum_abs_groupPortWeights g maxLev hmax
      exact ih (updState st (groupPortWeights maxLev g))
        (fun g2 hg2 => hbal g2 (List.mem_cons_of_mem g hg2)) hstep a h

/-- C2 counterexample under the default configuration
(max_gross_leverage = 1): symbol 0 appears alone on date 1 with a long
signal (full budget, weight 1), symbol 1 alone on date 2 with a short
signal (weight -1); on date 3 both symbols are present, one long and one
short candidate, but their lagged weights come from different past dates
and stack: gross_leverage = |1| + |-1| = 2 > 1. -/
theorem leverage_cap_counterexample :
    ((portRun {} [[⟨0, 0, 1⟩], [⟨1, 0, -1⟩],
          [⟨0, 0, 1⟩, ⟨1, 0, -1⟩]]).getD 2 dummyAgg).n_long = 1 ∧
      ((portRun {} [[⟨0, 0, 1⟩], [⟨1, 0, -1⟩],
          [⟨0, 0, 1⟩, ⟨1, 0, -1⟩]]).getD 2 dummyAgg).n_short = 1 ∧
      ((portRun {} [[⟨0, 0, 1⟩], [⟨1, 0, -1⟩],
          [⟨0, 0, 1⟩, ⟨1, 0, -1⟩]]).getD 2 dummyAgg).gross_leverage = 2 ∧
      ({} : BacktestConfig).max_gross_leverage = 1 := by
  refine ⟨?_, ?_, ?_, rfl⟩ <;>
    norm_num [portRun, portRunAux, dayAgg, updState, groupPortWeights, rowPortWeight,
      sideBudgets, longCount, shortCount, clipWeight, costPerTurnover, List.lookup,
      List.countP_cons, max_def, min_def, decide_eq_true_eq,
      show (((0 : ℕ) == 1)) = false from rfl, show (((1 : ℕ) == 0)) = false from rfl,
      show (((0 : ℕ) == 0)) = true from rfl, show (((1 : ℕ) == 1)) = true from rfl]

/-- C2 (amended).  Portfolio leverage cap (engine.py lines 220-271): when
every date group lists the same duplicate-free symbol set (a balanced
panel, so each lagged weight comes from the immediately preceding date)
and max_gross_leverage is nonnegative, gross_leverage (the sum of |lagged
portfolio weight|) never exceeds max_gross_leverage on any date — in
particular on dates with both long and short candidates.  The
counterexample shows the balance proviso is necessary: with date gaps,
lagged weights normalized on different past dates stack up to twice the
cap. -/
theorem leverage_cap_balanced (cfg : BacktestConfig) (groups : List DateGroup) (L : List ℕ)
    (hmax : 0 ≤ cfg.max_gross_leverage)
    (hbal : ∀ g ∈ groups, g.map PRow.sym = L) (hnd : L.Nodup) :
    ∀ a ∈ portRun cfg groups, a.gross_leverage ≤ cfg.max_gross_leverage := by
  intro a ha
  refine portRunAux_leverage _ cfg.max_gross_leverage hmax L hnd groups
    (fun _ => 0) hbal ?_ a ha
  simpa using hmax

/-- Witness for leverage_cap_balanced: a balanced two-date, two-symbol
long/short panel under the default configuration; the second date's
aggregate respects the cap. -/
theorem leverage_cap_balanced_witness :
    (0 : ℚ) ≤ ({} : BacktestConfig).max_gross_leverage ∧
      ((portRun {} [[⟨0, 0, 1⟩, ⟨1, 0, -1⟩],
            [⟨0, 1/10, 1⟩, ⟨1, -1/10, -1⟩]]).getD 1 dummyAgg).gross_leverage ≤
        ({} : BacktestConfig).max_gross_leverage :=
  ⟨by norm_num,
    leverage_cap_balanced {} [[⟨0, 0, 1⟩, ⟨1, 0, -1⟩], [⟨0, 1/10, 1⟩, ⟨1, -1/10, -1⟩]]
      [0, 1] (by norm_num)
      (by
        intro g hg
        simp only [List.mem_cons, List.not_mem_nil, or_false] at hg
        rcases hg with h | h <;> subst h <;> rfl)
      (by decide) _
      (List.mem_cons_of_mem _ (List.mem_cons_self _ _))⟩

/-- Witness for max_drawdown_properties: the default configuration on a
concrete one-day panel and one-date portfolio. -/
theorem max_drawdown_properties_witness :
    (0 : ℚ) < ({} : BacktestConfig).initial_capital ∧
      maxDrawdownSingle {} [⟨1/10, 1⟩] ≤ 0 ∧
      maxDrawdownPortfolio {} [[⟨0, 1/10, 1⟩]] ≤ 0 :=
  ⟨by norm_num,
    (max_drawdown_properties {} [⟨1/10, 1⟩] [[⟨0, 1/10, 1⟩]] (by norm_num)
      (by simp) (by simp)).1,
    (max_drawdown_properties {} [⟨1/10, 1⟩] [[⟨0, 1/10, 1⟩]] (by norm_num)
      (by simp) (by simp)).2.2.2.1⟩

end GPWQuant
